import Mathlib

/-!
# Verification of the PENNANT hydrodynamics core (`src/Hydro.cc`)

Shallow embedding of the Legion-PENNANT `Hydro` component in Lean 4.
`double` values are modelled by exact rationals (`ℚ`), except for the
radial-velocity initialization, which needs a square root and is modelled
over `ℝ`.  Per-entity arrays (`zone_*`, `pt_*`, side arrays) are modelled
as functions `ℕ → _`; the chunk loops `for (i = first; i < last; ++i)`
become folds over `List.range' first (last - first)`.

The diagnostic message buffers written with `snprintf` are modelled by the
inductive type `Msg`, which records which limit produced the message and
the zone index printed into it (`-1` when no zone was selected).  The
uninitialized `char msgdtchunk[80]` buffer of `Hydro::calcDtHydro` is
modelled as `Msg.none` (its contents are indeterminate; in particular it
is not a Courant or a volume message).

Maps that live in classes outside this file's source (`LocalMesh`,
`GenerateMesh`) are kept abstract as function parameters:
`mapSideToSidePrev`, `LocalMesh::mapSideToPt2` and
`GenerateMesh::pointLocalToGlobalID` appear as arguments `prev`,
`map_side2pt2` and `gid`.
-/

namespace PennantHydro

/-- The `double2` 2-D vector type of PENNANT, over exact rationals. -/
structure Vec2 where
  x : ℚ
  y : ℚ
deriving DecidableEq

instance : Add Vec2 where
  add a b := ⟨a.x + b.x, a.y + b.y⟩

instance : Sub Vec2 where
  sub a b := ⟨a.x - b.x, a.y - b.y⟩

instance : Neg Vec2 where
  neg a := ⟨-a.x, -a.y⟩

/-- Scalar multiplication `c * v` on `double2`. -/
def Vec2.scale (c : ℚ) (v : Vec2) : Vec2 := ⟨c * v.x, c * v.y⟩

/-- Scalar division `v / c` on `double2`. -/
def Vec2.divS (v : Vec2) (c : ℚ) : Vec2 := ⟨v.x / c, v.y / c⟩

/-- `dot` on `double2`. -/
def dot (a b : Vec2) : ℚ := a.x * b.x + a.y * b.y

theorem Vec2.add_x (a b : Vec2) : (a + b).x = a.x + b.x := rfl

theorem Vec2.add_y (a b : Vec2) : (a + b).y = a.y + b.y := rfl

theorem Vec2.sub_x (a b : Vec2) : (a - b).x = a.x - b.x := rfl

theorem Vec2.sub_y (a b : Vec2) : (a - b).y = a.y - b.y := rfl

theorem Vec2.neg_x (a : Vec2) : (-a).x = -a.x := rfl

theorem Vec2.neg_y (a : Vec2) : (-a).y = -a.y := rfl

theorem Vec2.ext_comp {a b : Vec2} (hx : a.x = b.x) (hy : a.y = b.y) :
    a = b := by
  cases a
  cases b
  simp_all

/-- The `fuzz = 1.e-99` guard constant used throughout `Hydro.cc`. -/
def fuzz : ℚ := 1 / 10 ^ 99

/-- The `1.e99` time-step sentinel (`dtnew`/`dtchunk` initial value). -/
def big : ℚ := 10 ^ 99

/-- The `eps = 1.e-12` tolerance of `Hydro::init` and `Hydro::initRadialVel`. -/
def eps : ℚ := 1 / 10 ^ 12

/-- `std::numeric_limits<double>::max()`, the "no subregion" sentinel. -/
def dblMax : ℚ := (2 ^ 53 - 1) * 2 ^ 971

/-- The index range `[first, last)` of a chunk loop. -/
def chunkRange (first last : ℕ) : List ℕ := List.range' first (last - first)

/-- Diagnostic message state (`msgdtrec` / `recommend.message` buffers).
`courant z` stands for `"Hydro Courant limit for z = %d"` and `volume z`
for `"Hydro dV/V limit for z = %d"`; `none` stands for a buffer into which
neither message has been printed. -/
inductive Msg where
  | none : Msg
  | courant (z : ℤ) : Msg
  | volume (z : ℤ) : Msg
deriving DecidableEq

/-- A loop `for i in l` that stores `f i` into index `i` of array `g`
whenever condition `c i` holds: the common shape of the `#pragma ivdep`
loops of `Hydro.cc`, whose per-iteration value depends only on `i`. -/
def updateFold {α : Type} (g : ℕ → α) (c : ℕ → Bool) (f : ℕ → α) (l : List ℕ) :
    ℕ → α :=
  l.foldl (fun g' i => if c i then Function.update g' i (f i) else g') g

theorem updateFold_nil {α : Type} (g : ℕ → α) (c : ℕ → Bool) (f : ℕ → α) :
    updateFold g c f [] = g := rfl

theorem updateFold_cons {α : Type} (g : ℕ → α) (c : ℕ → Bool) (f : ℕ → α)
    (a : ℕ) (t : List ℕ) :
    updateFold g c f (a :: t) =
      updateFold (if c a then Function.update g a (f a) else g) c f t := rfl

theorem updateFold_not_mem {α : Type} (g : ℕ → α) (c : ℕ → Bool) (f : ℕ → α)
    (l : List ℕ) (i : ℕ) (hi : i ∉ l) : updateFold g c f l i = g i := by
  induction l generalizing g with
  | nil => rfl
  | cons a t ih =>
    rw [updateFold_cons]
    have hia : i ≠ a := fun h => hi (h ▸ List.mem_cons_self a t)
    have hit : i ∉ t := fun h => hi (List.mem_cons_of_mem a h)
    rw [ih _ hit]
    split
    · exact Function.update_noteq hia _ _
    · rfl

theorem updateFold_mem {α : Type} (g : ℕ → α) (c : ℕ → Bool) (f : ℕ → α)
    (l : List ℕ) (i : ℕ) (hi : i ∈ l) :
    updateFold g c f l i = if c i then f i else g i := by
  induction l generalizing g with
  | nil => cases hi
  | cons a t ih =>
    rw [updateFold_cons]
    by_cases hit : i ∈ t
    · rw [ih _ hit]
      by_cases hc : c i
      · simp [hc]
      · simp only [hc, if_false, Bool.false_eq_true]
        by_cases hia : i = a
        · subst hia
          simp [hc]
        · split
          · exact Function.update_noteq hia _ _
          · rfl
    · have hia : i = a := by
        rcases List.mem_cons.mp hi with h | h
        · exact h
        · exact absurd h hit
      subst hia
      rw [updateFold_not_mem _ _ _ _ _ hit]
      by_cases hc : c i
      · simp [hc]
      · simp [hc]

/-! ## `Hydro::calcWork` (Hydro.cc lines 394-430) -/

/-- The per-side work increment of `Hydro::calcWork`:
`dth = 0.5*dt`; `sftot = side_force_pres[s] + side_force_visc[s]`;
`sd1 = dot(sftot, pt_vel0[p1] + pt_vel[p1])`;
`sd2 = dot(-sftot, pt_vel0[p2] + pt_vel[p2])`;
`dwork = -dth * (sd1 * pt_x_pred[p1].x + sd2 * pt_x_pred[p2].x)`. -/
def dworkSide (dt : ℚ) (map_side2pt1 map_side2pt2 : ℕ → ℕ)
    (side_force_pres side_force_visc : ℕ → Vec2)
    (pt_vel pt_vel0 pt_x_pred : ℕ → Vec2) (side : ℕ) : ℚ :=
  let dth := (1 / 2 : ℚ) * dt
  let p1 := map_side2pt1 side
  let p2 := map_side2pt2 side
  let sftot := side_force_pres side + side_force_visc side
  let sd1 := dot sftot (pt_vel0 p1 + pt_vel p1)
  let sd2 := dot (-sftot) (pt_vel0 p2 + pt_vel p2);
  -dth * (sd1 * (pt_x_pred p1).x + sd2 * (pt_x_pred p2).x)

/-- One iteration of the `calcWork` side loop: accumulate `dwork` into
`zone_energy_tot[z]` and `zone_work[z]` for `z = map_side2zone[side]`. -/
def calcWorkStep (dt : ℚ) (map_side2pt1 map_side2pt2 map_side2zone : ℕ → ℕ)
    (side_force_pres side_force_visc : ℕ → Vec2)
    (pt_vel pt_vel0 pt_x_pred : ℕ → Vec2)
    (ew : (ℕ → ℚ) × (ℕ → ℚ)) (side : ℕ) : (ℕ → ℚ) × (ℕ → ℚ) :=
  let z := map_side2zone side
  let dwork := dworkSide dt map_side2pt1 map_side2pt2 side_force_pres
    side_force_visc pt_vel pt_vel0 pt_x_pred side
  (Function.update ew.1 z (ew.1 z + dwork),
   Function.update ew.2 z (ew.2 z + dwork))

/-- `Hydro::calcWork`: fold of the side loop over `[side_first, side_last)`,
returning the updated `(zone_energy_tot, zone_work)` pair.
`map_side2pt2` stands for `LocalMesh::mapSideToPt2` (code outside this
file's source), kept abstract. -/
def calcWork (dt : ℚ) (map_side2pt1 map_side2pt2 map_side2zone : ℕ → ℕ)
    (side_force_pres side_force_visc : ℕ → Vec2)
    (pt_vel pt_vel0 pt_x_pred : ℕ → Vec2)
    (zone_energy_tot zone_work : ℕ → ℚ)
    (side_first side_last : ℕ) : (ℕ → ℚ) × (ℕ → ℚ) :=
  (chunkRange side_first side_last).foldl
    (calcWorkStep dt map_side2pt1 map_side2pt2 map_side2zone side_force_pres
      side_force_visc pt_vel pt_vel0 pt_x_pred)
    (zone_energy_tot, zone_work)

/-- The work increment the claim (and the spec sentence) states:
`-(dt/2) * (dot(total_force, vel_avg_p1)*x_p1 - dot(total_force, vel_avg_p2)*x_p2)`
with `vel_avg_p = 0.5*(pt_vel0[p] + pt_vel[p])`.  Written from the spec's
words, to be compared with `dworkSide` (the code's value). -/
def dworkClaimed (dt : ℚ) (map_side2pt1 map_side2pt2 : ℕ → ℕ)
    (side_force_pres side_force_visc : ℕ → Vec2)
    (pt_vel pt_vel0 pt_x_pred : ℕ → Vec2) (side : ℕ) : ℚ :=
  let p1 := map_side2pt1 side
  let p2 := map_side2pt2 side
  let total_force := side_force_pres side + side_force_visc side
  let vel_avg_p1 := Vec2.scale (1 / 2) (pt_vel0 p1 + pt_vel p1)
  let vel_avg_p2 := Vec2.scale (1 / 2) (pt_vel0 p2 + pt_vel p2);
  -(dt / 2) * (dot total_force vel_avg_p1 * (pt_x_pred p1).x -
    dot total_force vel_avg_p2 * (pt_x_pred p2).x)

theorem calcWork_foldl_spec (dt : ℚ)
    (map_side2pt1 map_side2pt2 map_side2zone : ℕ → ℕ)
    (side_force_pres side_force_visc : ℕ → Vec2)
    (pt_vel pt_vel0 pt_x_pred : ℕ → Vec2)
    (l : List ℕ) (ew : (ℕ → ℚ) × (ℕ → ℚ)) (z : ℕ) :
    (l.foldl (calcWorkStep dt map_side2pt1 map_side2pt2 map_side2zone
        side_force_pres side_force_visc pt_vel pt_vel0 pt_x_pred) ew).1 z =
      ew.1 z + ((l.filter (fun s => map_side2zone s = z)).map
        (dworkSide dt map_side2pt1 map_side2pt2 side_force_pres
          side_force_visc pt_vel pt_vel0 pt_x_pred)).sum ∧
    (l.foldl (calcWorkStep dt map_side2pt1 map_side2pt2 map_side2zone
        side_force_pres side_force_visc pt_vel pt_vel0 pt_x_pred) ew).2 z =
      ew.2 z + ((l.filter (fun s => map_side2zone s = z)).map
        (dworkSide dt map_side2pt1 map_side2pt2 side_force_pres
          side_force_visc pt_vel pt_vel0 pt_x_pred)).sum := by
  induction l generalizing ew with
  | nil => simp
  | cons a t ih =>
    rw [List.foldl_cons]
    rcases ih (calcWorkStep dt map_side2pt1 map_side2pt2 map_side2zone
      side_force_pres side_force_visc pt_vel pt_vel0 pt_x_pred ew a) with ⟨h1, h2⟩
    by_cases hz : map_side2zone a = z
    · rw [List.filter_cons_of_pos (by simpa using hz), List.map_cons,
        List.sum_cons]
      constructor
      · rw [h1]
        simp only [calcWorkStep, hz, Function.update_same]
        ring
      · rw [h2]
        simp only [calcWorkStep, hz, Function.update_same]
        ring
    · rw [List.filter_cons_of_neg (by simpa using hz)]
      constructor
      · rw [h1]
        simp only [calcWorkStep]
        rw [Function.update_noteq (by simpa using fun h => hz h.symm)]
      · rw [h2]
        simp only [calcWorkStep]
        rw [Function.update_noteq (by simpa using fun h => hz h.symm)]

/-- C1: the claim's per-side work increment, stated with
`vel_avg_p = 0.5*(pt_vel0[p] + pt_vel[p])` and coefficient `-(dt/2)`, is
FALSE on the code: `Hydro::calcWork` uses the raw sum
`pt_vel0[p] + pt_vel[p]` with coefficient `-(dt/2)`, i.e. twice the
claimed amount.  Concrete input: `dt = 2`, one side with `p1 = 0`,
`p2 = 1`, `z = 0`, `side_force_pres = (1,0)`, `side_force_visc = (0,0)`,
both velocities `(1,0)` at `p1` and `(0,0)` at `p2`,
`pt_x_pred = (1,0)`: the code adds `-2` to `zone_energy_tot[0]` while the
claimed `dwork` is `-1`. -/
theorem calcWork_claim_cex :
    (calcWork 2 (fun _ => 0) (fun _ => 1) (fun _ => 0)
        (fun _ => ⟨1, 0⟩) (fun _ => ⟨0, 0⟩)
        (fun p => if p = 0 then ⟨1, 0⟩ else ⟨0, 0⟩)
        (fun p => if p = 0 then ⟨1, 0⟩ else ⟨0, 0⟩)
        (fun _ => ⟨1, 0⟩) (fun _ => 0) (fun _ => 0) 0 1).1 0 = -2 ∧
    dworkClaimed 2 (fun _ => 0) (fun _ => 1)
        (fun _ => ⟨1, 0⟩) (fun _ => ⟨0, 0⟩)
        (fun p => if p = 0 then ⟨1, 0⟩ else ⟨0, 0⟩)
        (fun p => if p = 0 then ⟨1, 0⟩ else ⟨0, 0⟩)
        (fun _ => ⟨1, 0⟩) 0 = -1 ∧
    (-2 : ℚ) ≠ -1 := by
  refine ⟨?_, ?_, by norm_num⟩
  · norm_num [calcWork, chunkRange, List.range', calcWorkStep, dworkSide, dot,
      Vec2.add_x, Vec2.add_y, Vec2.neg_x, Vec2.neg_y, Function.update_same]
  · norm_num [dworkClaimed, dot, Vec2.scale, Vec2.add_x, Vec2.add_y]

/-- C1 (amended): for every side of the processed range `calcWork` adds to
`zone_energy_tot[z]` and `zone_work[z]` (for `z` the side's zone) the same
amount `dwork = -(dt/2) * (dot(total_force, pt_vel0[p1]+pt_vel[p1]) * x_p1
- dot(total_force, pt_vel0[p2]+pt_vel[p2]) * x_p2)` — equivalently twice
the spec's value, `-dt * (dot(total_force, vel_avg_p1)*x_p1 -
dot(total_force, vel_avg_p2)*x_p2)` — where
`total_force = side_force_pres[s] + side_force_visc[s]` (the
subzonal/TTS force excluded) and `x_p` is the predicted mid-step radial
coordinate: each zone's entry ends at its start value plus the sum of the
`dwork` of the processed sides owned by it. -/
theorem calcWork_spec (dt : ℚ)
    (map_side2pt1 map_side2pt2 map_side2zone : ℕ → ℕ)
    (side_force_pres side_force_visc : ℕ → Vec2)
    (pt_vel pt_vel0 pt_x_pred : ℕ → Vec2)
    (zone_energy_tot zone_work : ℕ → ℚ) (side_first side_last z : ℕ) :
    (calcWork dt map_side2pt1 map_side2pt2 map_side2zone side_force_pres
        side_force_visc pt_vel pt_vel0 pt_x_pred zone_energy_tot zone_work
        side_first side_last).1 z =
      zone_energy_tot z +
        (((chunkRange side_first side_last).filter
            (fun s => map_side2zone s = z)).map
          (dworkSide dt map_side2pt1 map_side2pt2 side_force_pres
            side_force_visc pt_vel pt_vel0 pt_x_pred)).sum ∧
    (calcWork dt map_side2pt1 map_side2pt2 map_side2zone side_force_pres
        side_force_visc pt_vel pt_vel0 pt_x_pred zone_energy_tot zone_work
        side_first side_last).2 z =
      zone_work z +
        (((chunkRange side_first side_last).filter
            (fun s => map_side2zone s = z)).map
          (dworkSide dt map_side2pt1 map_side2pt2 side_force_pres
            side_force_visc pt_vel pt_vel0 pt_x_pred)).sum ∧
    ∀ s : ℕ,
      dworkSide dt map_side2pt1 map_side2pt2 side_force_pres
          side_force_visc pt_vel pt_vel0 pt_x_pred s =
        2 * dworkClaimed dt map_side2pt1 map_side2pt2 side_force_pres
          side_force_visc pt_vel pt_vel0 pt_x_pred s := by
  rcases calcWork_foldl_spec dt map_side2pt1 map_side2pt2 map_side2zone
    side_force_pres side_force_visc pt_vel pt_vel0 pt_x_pred
    (chunkRange side_first side_last) (zone_energy_tot, zone_work) z with ⟨h1, h2⟩
  refine ⟨h1, h2, fun s => ?_⟩
  simp only [dworkSide, dworkClaimed, dot, Vec2.scale, Vec2.add_x, Vec2.add_y,
    Vec2.neg_x, Vec2.neg_y]
  ring

/-- C10: `calcWork` adds each side's `dwork` to both `zone_energy_tot[z]`
and `zone_work[z]`, so the per-zone difference
`zone_energy_tot[z] - zone_work[z]` is invariant under `calcWork`, for any
side range, force arrays, velocities and positions. -/
theorem calcWork_etot_work_invariant (dt : ℚ)
    (map_side2pt1 map_side2pt2 map_side2zone : ℕ → ℕ)
    (side_force_pres side_force_visc : ℕ → Vec2)
    (pt_vel pt_vel0 pt_x_pred : ℕ → Vec2)
    (zone_energy_tot zone_work : ℕ → ℚ) (side_first side_last z : ℕ) :
    (calcWork dt map_side2pt1 map_side2pt2 map_side2zone side_force_pres
        side_force_visc pt_vel pt_vel0 pt_x_pred zone_energy_tot zone_work
        side_first side_last).1 z -
      (calcWork dt map_side2pt1 map_side2pt2 map_side2zone side_force_pres
        side_force_visc pt_vel pt_vel0 pt_x_pred zone_energy_tot zone_work
        side_first side_last).2 z =
      zone_energy_tot z - zone_work z := by
  rcases calcWork_foldl_spec dt map_side2pt1 map_side2pt2 map_side2zone
    side_force_pres side_force_visc pt_vel pt_vel0 pt_x_pred
    (chunkRange side_first side_last) (zone_energy_tot, zone_work) z with ⟨h1, h2⟩
  rw [calcWork, h1, h2]
  ring

/-! ## Time-step control (`Hydro.cc` lines 514-600) -/

/-- Per-zone Courant estimate of `Hydro::calcDtCourant`:
`cdu = max(zone_dvel[z], max(zone_sound_speed[z], fuzz))`;
`zdthyd = zdl[z] * cfl / cdu`. -/
def courVal (zone_dl zone_dvel zone_sound_speed : ℕ → ℚ) (cfl : ℚ)
    (z : ℕ) : ℚ :=
  let cdu := max (zone_dvel z) (max (zone_sound_speed z) fuzz);
  zone_dl z * cfl / cdu

/-- One iteration of the `calcDtCourant` zone loop on state `(dtnew, zmin)`:
`zmin = (zdthyd < dtnew ? z : zmin); dtnew = (zdthyd < dtnew ? zdthyd : dtnew)`. -/
def courStep (zone_dl zone_dvel zone_sound_speed : ℕ → ℚ) (cfl : ℚ)
    (st : ℚ × ℤ) (z : ℕ) : ℚ × ℤ :=
  let zdthyd := courVal zone_dl zone_dvel zone_sound_speed cfl z;
  (if zdthyd < st.1 then zdthyd else st.1,
   if zdthyd < st.1 then (z : ℤ) else st.2)

/-- The `calcDtCourant` zone loop, from `dtnew = 1.e99`, `zmin = -1`. -/
def courantFold (zone_dl zone_dvel zone_sound_speed : ℕ → ℚ) (cfl : ℚ)
    (zs : List ℕ) : ℚ × ℤ :=
  zs.foldl (courStep zone_dl zone_dvel zone_sound_speed cfl) (big, -1)

/-- `Hydro::calcDtCourant`: run the zone loop over `[zfirst, zlast)`, then
overwrite `(dtrec, msgdtrec)` when `dtnew < dtrec`. -/
def calcDtCourant (dtrec : ℚ) (msgdtrec : Msg) (zfirst zlast : ℕ)
    (zone_dl zone_dvel zone_sound_speed : ℕ → ℚ) (cfl : ℚ) : ℚ × Msg :=
  let r := courantFold zone_dl zone_dvel zone_sound_speed cfl
    (chunkRange zfirst zlast);
  if r.1 < dtrec then (r.1, Msg.courant r.2) else (dtrec, msgdtrec)

/-- Per-zone volume-change ratio of `Hydro::calcDtVolume`:
`zdvov = abs((zvol[z] - zvol0[z]) / zvol0[z])`. -/
def volVal (zone_vol zone_vol0 : ℕ → ℚ) (z : ℕ) : ℚ :=
  |(zone_vol z - zone_vol0 z) / zone_vol0 z|

/-- One iteration of the `calcDtVolume` zone loop on state `(dvovmax, zmax)`. -/
def volStep (zone_vol zone_vol0 : ℕ → ℚ) (st : ℚ × ℤ) (z : ℕ) : ℚ × ℤ :=
  let zdvov := volVal zone_vol zone_vol0 z;
  (if zdvov > st.1 then zdvov else st.1,
   if zdvov > st.1 then (z : ℤ) else st.2)

/-- The `calcDtVolume` zone loop, from `dvovmax = 1.e-99`, `zmax = -1`. -/
def volumeFold (zone_vol zone_vol0 : ℕ → ℚ) (zs : List ℕ) : ℚ × ℤ :=
  zs.foldl (volStep zone_vol zone_vol0) (fuzz, -1)

/-- `Hydro::calcDtVolume`: run the zone loop over `[zfirst, zlast)`, set
`dtnew = dtlast * cflv / dvovmax`, and overwrite `(dtrec, msgdtrec)` when
`dtnew < dtrec`. -/
def calcDtVolume (dtlast dtrec : ℚ) (msgdtrec : Msg) (zfirst zlast : ℕ)
    (zone_vol zone_vol0 : ℕ → ℚ) (cflv : ℚ) : ℚ × Msg :=
  let r := volumeFold zone_vol zone_vol0 (chunkRange zfirst zlast);
  let dtnew := dtlast * cflv / r.1;
  if dtnew < dtrec then (dtnew, Msg.volume r.2) else (dtrec, msgdtrec)

/-- The `TimeStep` recommendation: a `dt` and its diagnostic message. -/
structure TimeStep where
  dt : ℚ
  message : Msg
deriving DecidableEq

/-- `Hydro::calcDtHydro`: start from `dtchunk = 1.e99` and an unwritten
message buffer (`Msg.none`), apply `calcDtCourant` then `calcDtVolume`,
and commit `(dtchunk, msgdtchunk)` into `recommend` when
`dtchunk < recommend.dt` (the code's doubled test is sequentially a single
comparison). -/
def calcDtHydro (dtlast : ℚ) (zfirst zlast : ℕ)
    (zone_dl zone_dvel zone_sound_speed : ℕ → ℚ) (cfl : ℚ)
    (zone_vol zone_vol0 : ℕ → ℚ) (cflv : ℚ)
    (recommend : TimeStep) : TimeStep :=
  let c := calcDtCourant big Msg.none zfirst zlast zone_dl zone_dvel
    zone_sound_speed cfl;
  let v := calcDtVolume dtlast c.1 c.2 zfirst zlast zone_vol zone_vol0 cflv;
  if v.1 < recommend.dt then ⟨v.1, v.2⟩ else recommend

theorem foldl_min_le (l : List ℚ) (d : ℚ) : l.foldl min d ≤ d := by
  induction l generalizing d with
  | nil => exact le_refl d
  | cons a t ih => exact le_trans (ih (min d a)) (min_le_left d a)

theorem le_foldl_max (l : List ℚ) (d : ℚ) : d ≤ l.foldl max d := by
  induction l generalizing d with
  | nil => exact le_refl d
  | cons a t ih => exact le_trans (le_max_left d a) (ih (max d a))

theorem courStep_fst (zone_dl zone_dvel zone_sound_speed : ℕ → ℚ) (cfl : ℚ)
    (st : ℚ × ℤ) (z : ℕ) :
    (courStep zone_dl zone_dvel zone_sound_speed cfl st z).1 =
      min st.1 (courVal zone_dl zone_dvel zone_sound_speed cfl z) := by
  simp only [courStep]
  split
  · exact (min_eq_right (le_of_lt ‹_›)).symm
  · exact (min_eq_left (not_lt.mp ‹_›)).symm

theorem volStep_fst (zone_vol zone_vol0 : ℕ → ℚ) (st : ℚ × ℤ) (z : ℕ) :
    (volStep zone_vol zone_vol0 st z).1 =
      max st.1 (volVal zone_vol zone_vol0 z) := by
  simp only [volStep]
  split
  · exact (max_eq_right (le_of_lt ‹_›)).symm
  · exact (max_eq_left (not_lt.mp ‹_›)).symm

theorem courStep_snd (zone_dl zone_dvel zone_sound_speed : ℕ → ℚ) (cfl : ℚ)
    (st : ℚ × ℤ) (z : ℕ) :
    (courStep zone_dl zone_dvel zone_sound_speed cfl st z).2 =
      if courVal zone_dl zone_dvel zone_sound_speed cfl z < st.1 then (z : ℤ)
      else st.2 := rfl

theorem volStep_snd (zone_vol zone_vol0 : ℕ → ℚ) (st : ℚ × ℤ) (z : ℕ) :
    (volStep zone_vol zone_vol0 st z).2 =
      if volVal zone_vol zone_vol0 z > st.1 then (z : ℤ) else st.2 := rfl

/-- Invariants of the `calcDtCourant` zone loop started at any state:
the running `dtnew` is the `min`-fold of the per-zone values; when it did
not strictly drop, `zmin` is unchanged; when it did, `zmin` is a processed
zone achieving the final `dtnew`. -/
theorem courantLoop_spec (zone_dl zone_dvel zone_sound_speed : ℕ → ℚ)
    (cfl : ℚ) (zs : List ℕ) (st : ℚ × ℤ) :
    (zs.foldl (courStep zone_dl zone_dvel zone_sound_speed cfl) st).1 =
      (zs.map (courVal zone_dl zone_dvel zone_sound_speed cfl)).foldl min st.1 ∧
    ((zs.foldl (courStep zone_dl zone_dvel zone_sound_speed cfl) st).1 = st.1 →
      (zs.foldl (courStep zone_dl zone_dvel zone_sound_speed cfl) st).2 = st.2) ∧
    ((zs.foldl (courStep zone_dl zone_dvel zone_sound_speed cfl) st).1 < st.1 →
      ∃ z ∈ zs,
        courVal zone_dl zone_dvel zone_sound_speed cfl z =
          (zs.foldl (courStep zone_dl zone_dvel zone_sound_speed cfl) st).1 ∧
        (zs.foldl (courStep zone_dl zone_dvel zone_sound_speed cfl) st).2 =
          (z : ℤ)) := by
  induction zs generalizing st with
  | nil => exact ⟨rfl, fun _ => rfl, fun h => absurd h (lt_irrefl _)⟩
  | cons z t ih =>
    have hle : ∀ su : ℚ × ℤ,
        (t.foldl (courStep zone_dl zone_dvel zone_sound_speed cfl) su).1 ≤
          su.1 := by
      intro su
      rw [(ih su).1, List.foldl_map]
      have h := foldl_min_le
        (t.map (courVal zone_dl zone_dvel zone_sound_speed cfl)) su.1
      rwa [List.foldl_map] at h
    set st' := courStep zone_dl zone_dvel zone_sound_speed cfl st z with hst'
    have hfst : st'.1 = min st.1
        (courVal zone_dl zone_dvel zone_sound_speed cfl z) :=
      courStep_fst zone_dl zone_dvel zone_sound_speed cfl st z
    have hfold : (z :: t).foldl
        (courStep zone_dl zone_dvel zone_sound_speed cfl) st =
        t.foldl (courStep zone_dl zone_dvel zone_sound_speed cfl) st' :=
      List.foldl_cons _ _
    refine ⟨?_, ?_, ?_⟩
    · rw [hfold, (ih st').1, List.map_cons, List.foldl_cons, hfst]
    · intro h
      rw [hfold] at h ⊢
      have hA : (t.foldl (courStep zone_dl zone_dvel zone_sound_speed cfl)
          st').1 ≤ st'.1 := hle st'
      have hB : st'.1 ≤ st.1 := by
        rw [hfst]
        exact min_le_left _ _
      have hE : (t.foldl (courStep zone_dl zone_dvel zone_sound_speed cfl)
          st').1 = st'.1 := le_antisymm hA (by rw [h]; exact hB)
      rw [(ih st').2.1 hE]
      have hst1 : st'.1 = st.1 := by rw [← h, hE]
      have hnv : ¬ courVal zone_dl zone_dvel zone_sound_speed cfl z < st.1 := by
        intro hv
        have hlt : st'.1 < st.1 := by
          rw [hfst]
          exact lt_of_le_of_lt (min_le_right _ _) hv
        rw [hst1] at hlt
        exact lt_irrefl _ hlt
      rw [hst', courStep_snd, if_neg hnv]
    · intro h
      rw [hfold] at h ⊢
      by_cases hc : (t.foldl (courStep zone_dl zone_dvel zone_sound_speed cfl)
          st').1 < st'.1
      · obtain ⟨z', hz', hval, hsnd⟩ := (ih st').2.2 hc
        exact ⟨z', List.mem_cons_of_mem _ hz', hval, hsnd⟩
      · have hE : (t.foldl (courStep zone_dl zone_dvel zone_sound_speed cfl)
            st').1 = st'.1 := le_antisymm (hle st') (not_lt.mp hc)
        have hsnd := (ih st').2.1 hE
        have hlt : st'.1 < st.1 := by rw [← hE]; exact h
        have hv : courVal zone_dl zone_dvel zone_sound_speed cfl z < st.1 := by
          by_contra hnv
          have hx : st'.1 = st.1 := by
            rw [hfst]
            exact min_eq_left (not_lt.mp hnv)
          rw [hx] at hlt
          exact lt_irrefl _ hlt
        refine ⟨z, List.mem_cons_self z t, ?_, ?_⟩
        · rw [hE, hfst, min_eq_right (le_of_lt hv)]
        · rw [hsnd, hst', courStep_snd, if_pos hv]

/-- Invariants of the `calcDtVolume` zone loop, mirror image of
`courantLoop_spec` with `max` in place of `min`. -/
theorem volumeLoop_spec (zone_vol zone_vol0 : ℕ → ℚ) (zs : List ℕ)
    (st : ℚ × ℤ) :
    (zs.foldl (volStep zone_vol zone_vol0) st).1 =
      (zs.map (volVal zone_vol zone_vol0)).foldl max st.1 ∧
    ((zs.foldl (volStep zone_vol zone_vol0) st).1 = st.1 →
      (zs.foldl (volStep zone_vol zone_vol0) st).2 = st.2) ∧
    (st.1 < (zs.foldl (volStep zone_vol zone_vol0) st).1 →
      ∃ z ∈ zs,
        volVal zone_vol zone_vol0 z =
          (zs.foldl (volStep zone_vol zone_vol0) st).1 ∧
        (zs.foldl (volStep zone_vol zone_vol0) st).2 = (z : ℤ)) := by
  induction zs generalizing st with
  | nil => exact ⟨rfl, fun _ => rfl, fun h => absurd h (lt_irrefl _)⟩
  | cons z t ih =>
    have hle : ∀ su : ℚ × ℤ,
        su.1 ≤ (t.foldl (volStep zone_vol zone_vol0) su).1 := by
      intro su
      rw [(ih su).1, List.foldl_map]
      have h := le_foldl_max (t.map (volVal zone_vol zone_vol0)) su.1
      rwa [List.foldl_map] at h
    set st' := volStep zone_vol zone_vol0 st z with hst'
    have hfst : st'.1 = max st.1 (volVal zone_vol zone_vol0 z) :=
      volStep_fst zone_vol zone_vol0 st z
    have hfold : (z :: t).foldl (volStep zone_vol zone_vol0) st =
        t.foldl (volStep zone_vol zone_vol0) st' :=
      List.foldl_cons _ _
    refine ⟨?_, ?_, ?_⟩
    · rw [hfold, (ih st').1, List.map_cons, List.foldl_cons, hfst]
    · intro h
      rw [hfold] at h ⊢
      have hA : st'.1 ≤ (t.foldl (volStep zone_vol zone_vol0) st').1 := hle st'
      have hB : st.1 ≤ st'.1 := by
        rw [hfst]
        exact le_max_left _ _
      have hE : (t.foldl (volStep zone_vol zone_vol0) st').1 = st'.1 :=
        le_antisymm (by rw [h]; exact hB) hA
      rw [(ih st').2.1 hE]
      have hst1 : st'.1 = st.1 := by rw [← h, hE]
      have hnv : ¬ volVal zone_vol zone_vol0 z > st.1 := by
        intro hv
        have hlt : st.1 < st'.1 := by
          rw [hfst]
          exact lt_of_lt_of_le hv (le_max_right _ _)
        rw [hst1] at hlt
        exact lt_irrefl _ hlt
      rw [hst', volStep_snd, if_neg hnv]
    · intro h
      rw [hfold] at h ⊢
      by_cases hc : st'.1 < (t.foldl (volStep zone_vol zone_vol0) st').1
      · obtain ⟨z', hz', hval, hsnd⟩ := (ih st').2.2 hc
        exact ⟨z', List.mem_cons_of_mem _ hz', hval, hsnd⟩
      · have hE : (t.foldl (volStep zone_vol zone_vol0) st').1 = st'.1 :=
          le_antisymm (not_lt.mp hc) (hle st')
        have hsnd := (ih st').2.1 hE
        have hlt : st.1 < st'.1 := by rw [← hE]; exact h
        have hv : volVal zone_vol zone_vol0 z > st.1 := by
          by_contra hnv
          have hx : st'.1 = st.1 := by
            rw [hfst]
            exact max_eq_left (not_lt.mp hnv)
          rw [hx] at hlt
          exact lt_irrefl _ hlt
        refine ⟨z, List.mem_cons_self z t, ?_, ?_⟩
        · rw [hE, hfst, max_eq_right (le_of_lt hv)]
        · rw [hsnd, hst', volStep_snd, if_pos hv]

theorem calcDtCourant_eq (dtrec : ℚ) (msg : Msg) (zfirst zlast : ℕ)
    (zone_dl zone_dvel zone_sound_speed : ℕ → ℚ) (cfl : ℚ) :
    calcDtCourant dtrec msg zfirst zlast zone_dl zone_dvel zone_sound_speed
        cfl =
      if (courantFold zone_dl zone_dvel zone_sound_speed cfl
            (chunkRange zfirst zlast)).1 < dtrec
      then ((courantFold zone_dl zone_dvel zone_sound_speed cfl
              (chunkRange zfirst zlast)).1,
            Msg.courant (courantFold zone_dl zone_dvel zone_sound_speed cfl
              (chunkRange zfirst zlast)).2)
      else (dtrec, msg) := rfl

theorem calcDtVolume_eq (dtlast dtrec : ℚ) (msg : Msg) (zfirst zlast : ℕ)
    (zone_vol zone_vol0 : ℕ → ℚ) (cflv : ℚ) :
    calcDtVolume dtlast dtrec msg zfirst zlast zone_vol zone_vol0 cflv =
      if dtlast * cflv /
            (volumeFold zone_vol zone_vol0 (chunkRange zfirst zlast)).1 < dtrec
      then (dtlast * cflv /
              (volumeFold zone_vol zone_vol0 (chunkRange zfirst zlast)).1,
            Msg.volume (volumeFold zone_vol zone_vol0
              (chunkRange zfirst zlast)).2)
      else (dtrec, msg) := rfl

theorem courantFold_def (zone_dl zone_dvel zone_sound_speed : ℕ → ℚ)
    (cfl : ℚ) (zs : List ℕ) :
    courantFold zone_dl zone_dvel zone_sound_speed cfl zs =
      zs.foldl (courStep zone_dl zone_dvel zone_sound_speed cfl) (big, -1) :=
  rfl

theorem volumeFold_def (zone_vol zone_vol0 : ℕ → ℚ) (zs : List ℕ) :
    volumeFold zone_vol zone_vol0 zs =
      zs.foldl (volStep zone_vol zone_vol0) (fuzz, -1) := rfl

theorem courantFold_fst (zone_dl zone_dvel zone_sound_speed : ℕ → ℚ)
    (cfl : ℚ) (zs : List ℕ) :
    (courantFold zone_dl zone_dvel zone_sound_speed cfl zs).1 =
      (zs.map (courVal zone_dl zone_dvel zone_sound_speed cfl)).foldl min
        big :=
  (courantLoop_spec zone_dl zone_dvel zone_sound_speed cfl zs (big, -1)).1

theorem courantFold_fst_le (zone_dl zone_dvel zone_sound_speed : ℕ → ℚ)
    (cfl : ℚ) (zs : List ℕ) :
    (courantFold zone_dl zone_dvel zone_sound_speed cfl zs).1 ≤ big := by
  rw [courantFold_fst]
  exact foldl_min_le _ _

theorem volumeFold_fst (zone_vol zone_vol0 : ℕ → ℚ) (zs : List ℕ) :
    (volumeFold zone_vol zone_vol0 zs).1 =
      (zs.map (volVal zone_vol zone_vol0)).foldl max fuzz :=
  (volumeLoop_spec zone_vol zone_vol0 zs (fuzz, -1)).1

theorem volumeFold_fst_ge (zone_vol zone_vol0 : ℕ → ℚ) (zs : List ℕ) :
    fuzz ≤ (volumeFold zone_vol zone_vol0 zs).1 := by
  rw [volumeFold_fst]
  exact le_foldl_max _ _

/-- C2 (counterexample): with one zone whose Courant estimate is
`2e99` (`zdl = 2`, `zdu = zss = 0`, `cfl = 1`, so `cdu = fuzz` and
`zdthyd = 2e99`) and incoming `dtrec = 1.5e99`, `calcDtCourant`
overwrites `dtrec` with the `1e99` loop sentinel (naming zone `-1`)
although the minimum over the zones of `zdl*cfl/cdu` is `2e99`, which is
NOT strictly smaller than the incoming `dtrec`: the claim's "dtnew is the
minimum over z" and its overwrite-iff both fail. -/
theorem calcDtCourant_claim_cex :
    calcDtCourant (3 / 2 * 10 ^ 99) Msg.none 0 1 (fun _ => 2) (fun _ => 0)
        (fun _ => 0) 1 = (big, Msg.courant (-1)) ∧
    courVal (fun _ => 2) (fun _ => 0) (fun _ => 0) 1 0 = 2 * 10 ^ 99 ∧
    ¬ (2 * 10 ^ 99 : ℚ) < 3 / 2 * 10 ^ 99 ∧
    big ≠ 3 / 2 * 10 ^ 99 := by
  have hmax : max (0 : ℚ) (max (0 : ℚ) fuzz) = fuzz := by
    rw [max_eq_right (by norm_num [fuzz]), max_eq_right (by norm_num [fuzz])]
  have hval : courVal (fun _ => 2) (fun _ => 0) (fun _ => 0) 1 0 =
      2 * 10 ^ 99 := by
    simp only [courVal, hmax]
    norm_num [fuzz]
  refine ⟨?_, hval, by norm_num, by norm_num [big]⟩
  rw [calcDtCourant_eq]
  have hfold : courantFold (fun _ => 2) (fun _ => 0) (fun _ => 0) 1
      (chunkRange 0 1) = (big, -1) := by
    have hrange : chunkRange 0 1 = [0] := rfl
    rw [hrange, courantFold, List.foldl_cons, List.foldl_nil, courStep, hval]
    norm_num [big]
  rw [hfold]
  norm_num [big]

/-- C2 (amended): `calcDtCourant` computes `dtnew` as the minimum of the
`1e99` loop sentinel and the per-zone values
`zdl[z] * cfl / max(zone_dvel[z], zone_sound_speed[z], fuzz)` over
`[zfirst, zlast)` (so `dtnew` is the minimum over the zones whenever some
zone's value is at most `1e99`), and overwrites `dtrec` and the message if
and only if `dtnew` is strictly smaller than the incoming `dtrec`,
otherwise leaving both unchanged; when `dtnew` is below the sentinel the
message names a zone achieving the minimum, and otherwise the named index
is `-1`. -/
theorem calcDtCourant_spec (dtrec : ℚ) (msg : Msg) (zfirst zlast : ℕ)
    (zone_dl zone_dvel zone_sound_speed : ℕ → ℚ) (cfl : ℚ) :
    calcDtCourant dtrec msg zfirst zlast zone_dl zone_dvel zone_sound_speed
        cfl =
      (if ((chunkRange zfirst zlast).map
            (courVal zone_dl zone_dvel zone_sound_speed cfl)).foldl min big <
          dtrec
       then (((chunkRange zfirst zlast).map
               (courVal zone_dl zone_dvel zone_sound_speed cfl)).foldl min big,
             Msg.courant (courantFold zone_dl zone_dvel zone_sound_speed cfl
               (chunkRange zfirst zlast)).2)
       else (dtrec, msg)) ∧
    (((chunkRange zfirst zlast).map
        (courVal zone_dl zone_dvel zone_sound_speed cfl)).foldl min big < big →
      ∃ z ∈ chunkRange zfirst zlast,
        courVal zone_dl zone_dvel zone_sound_speed cfl z =
          ((chunkRange zfirst zlast).map
            (courVal zone_dl zone_dvel zone_sound_speed cfl)).foldl min big ∧
        (courantFold zone_dl zone_dvel zone_sound_speed cfl
          (chunkRange zfirst zlast)).2 = (z : ℤ)) ∧
    (¬ ((chunkRange zfirst zlast).map
          (courVal zone_dl zone_dvel zone_sound_speed cfl)).foldl min big <
        big →
      (courantFold zone_dl zone_dvel zone_sound_speed cfl
        (chunkRange zfirst zlast)).2 = -1) := by
  obtain ⟨h1, h2, h3⟩ := courantLoop_spec zone_dl zone_dvel zone_sound_speed
    cfl (chunkRange zfirst zlast) (big, -1)
  rw [← courantFold_def] at h1 h2 h3
  refine ⟨?_, ?_, ?_⟩
  · rw [calcDtCourant_eq, h1]
  · intro h
    obtain ⟨z, hz, hval, hsnd⟩ := h3 (by rw [h1]; exact h)
    refine ⟨z, hz, ?_, hsnd⟩
    rw [hval, h1]
  · intro h
    apply h2
    have hle : (courantFold zone_dl zone_dvel zone_sound_speed cfl
        (chunkRange zfirst zlast)).1 ≤ big :=
      courantFold_fst_le zone_dl zone_dvel zone_sound_speed cfl _
    rw [h1]
    exact le_antisymm (by rw [← h1]; exact hle) (not_lt.mp h)

/-- C3 (counterexample): the claim computes the per-zone ratio as
`|zvol[z] - zvol0[z]| / zvol0[z]`, but the code computes
`abs((zvol[z] - zvol0[z]) / zvol0[z])`; the two differ when
`zvol0[z] < 0`, which the claim's "nonzero `zvol0[z]`" guard allows.
With one zone, `zvol = 1`, `zvol0 = -1`, `dtlast = cflv = 1` and incoming
`dtrec = 1`: the claim's ratio is `|1-(-1)|/(-1) = -2`, so its floored
maximum is `fuzz` and its `dtnew = 1e99` is not below `dtrec` (no
overwrite); the code's ratio is `|-2| = 2`, so it overwrites `dtrec`
with `1/2`. -/
theorem calcDtVolume_claim_cex :
    calcDtVolume 1 1 Msg.none 0 1 (fun _ => 1) (fun _ => -1) 1 =
      (1 / 2, Msg.volume 0) ∧
    |(1 : ℚ) - (-1)| / (-1) = -2 ∧
    ¬ (1 : ℚ) * 1 / max fuzz (|(1 : ℚ) - (-1)| / (-1)) < 1 := by
  have habs : |(1 : ℚ) - (-1)| / (-1) = -2 := by norm_num
  have hmaxf : max fuzz (|(1 : ℚ) - (-1)| / (-1)) = fuzz := by
    rw [habs]
    exact max_eq_left (by norm_num [fuzz])
  refine ⟨?_, habs, ?_⟩
  · rw [calcDtVolume_eq]
    have hval : volVal (fun _ => 1) (fun _ => -1) 0 = 2 := by
      norm_num [volVal]
    have hfold : volumeFold (fun _ => 1) (fun _ => -1) (chunkRange 0 1) =
        (2, 0) := by
      have hrange : chunkRange 0 1 = [0] := rfl
      rw [hrange, volumeFold_def, List.foldl_cons, List.foldl_nil, volStep,
        hval]
      norm_num [fuzz]
    rw [hfold]
    norm_num
  · rw [hmaxf]
    norm_num [fuzz]

/-- C3 (amended): for every zone range `[zfirst, zlast)` with nonzero
`zvol0[z]`, `calcDtVolume` computes `dvovmax` as the maximum over `z` of
`|(zvol[z] - zvol0[z]) / zvol0[z]|` (the absolute value taken of the
whole quotient, equivalently `|zvol-zvol0| / |zvol0|`), floored at
`fuzz = 1e-99` (the running maximum starts at `1e-99`), sets
`dtnew = dtlast * cflv / dvovmax`, and overwrites `dtrec` and the
diagnostic message if and only if `dtnew` is strictly smaller than the
incoming `dtrec`; when some zone's ratio strictly exceeds the floor the
message names a zone achieving the maximum, and otherwise the named index
is `-1`. -/
theorem calcDtVolume_spec (dtlast dtrec : ℚ) (msg : Msg) (zfirst zlast : ℕ)
    (zone_vol zone_vol0 : ℕ → ℚ) (cflv : ℚ)
    (hnz : ∀ z ∈ chunkRange zfirst zlast, zone_vol0 z ≠ 0) :
    calcDtVolume dtlast dtrec msg zfirst zlast zone_vol zone_vol0 cflv =
      (if dtlast * cflv /
            (((chunkRange zfirst zlast).map
              (volVal zone_vol zone_vol0)).foldl max fuzz) < dtrec
       then (dtlast * cflv /
               (((chunkRange zfirst zlast).map
                 (volVal zone_vol zone_vol0)).foldl max fuzz),
             Msg.volume (volumeFold zone_vol zone_vol0
               (chunkRange zfirst zlast)).2)
       else (dtrec, msg)) ∧
    (fuzz < ((chunkRange zfirst zlast).map
        (volVal zone_vol zone_vol0)).foldl max fuzz →
      ∃ z ∈ chunkRange zfirst zlast,
        volVal zone_vol zone_vol0 z =
          ((chunkRange zfirst zlast).map
            (volVal zone_vol zone_vol0)).foldl max fuzz ∧
        (volumeFold zone_vol zone_vol0 (chunkRange zfirst zlast)).2 =
          (z : ℤ)) ∧
    (¬ fuzz < ((chunkRange zfirst zlast).map
        (volVal zone_vol zone_vol0)).foldl max fuzz →
      (volumeFold zone_vol zone_vol0 (chunkRange zfirst zlast)).2 = -1) := by
  obtain ⟨h1, h2, h3⟩ := volumeLoop_spec zone_vol zone_vol0
    (chunkRange zfirst zlast) (fuzz, -1)
  rw [← volumeFold_def] at h1 h2 h3
  refine ⟨?_, ?_, ?_⟩
  · rw [calcDtVolume_eq, h1]
  · intro h
    obtain ⟨z, hz, hval, hsnd⟩ := h3 (by rw [h1]; exact h)
    refine ⟨z, hz, ?_, hsnd⟩
    rw [hval, h1]
  · intro h
    apply h2
    have hge : fuzz ≤ (volumeFold zone_vol zone_vol0
        (chunkRange zfirst zlast)).1 :=
      volumeFold_fst_ge zone_vol zone_vol0 _
    rw [h1]
    exact le_antisymm (not_lt.mp h) (by rw [← h1]; exact hge)

/-- Witness for C3 (amended) at a concrete input: one zone with
`zvol = 3`, `zvol0 = 2` (ratio `1/2`), `dtlast = cflv = 1`, incoming
`dtrec = 3`: `dtnew = 2 < 3`, so the record is overwritten with
`(2, volume message for zone 0)`. -/
theorem calcDtVolume_spec_witness :
    calcDtVolume 1 3 Msg.none 0 1 (fun _ => 3) (fun _ => 2) 1 =
      (2, Msg.volume 0) := by
  have h := (calcDtVolume_spec 1 3 Msg.none 0 1 (fun _ => 3) (fun _ => 2) 1
    (by intro z _; norm_num)).1
  have hval : volVal (fun _ => 3) (fun _ => 2) 0 = 1 / 2 := by
    norm_num [volVal]
  have hrange : chunkRange 0 1 = [0] := rfl
  have hmax : (((chunkRange 0 1).map
      (volVal (fun _ => 3) (fun _ => 2))).foldl max fuzz) = 1 / 2 := by
    rw [hrange, List.map_cons, List.map_nil, List.foldl_cons, List.foldl_nil,
      hval]
    exact max_eq_right (by norm_num [fuzz])
  have hfold : volumeFold (fun _ => 3) (fun _ => 2) (chunkRange 0 1) =
      (1 / 2, 0) := by
    rw [hrange, volumeFold_def, List.foldl_cons, List.foldl_nil, volStep,
      hval]
    norm_num [fuzz]
  rw [h, hmax, hfold]
  norm_num

theorem calcDtHydro_eq (dtlast : ℚ) (zfirst zlast : ℕ)
    (zone_dl zone_dvel zone_sound_speed : ℕ → ℚ) (cfl : ℚ)
    (zone_vol zone_vol0 : ℕ → ℚ) (cflv : ℚ) (recommend : TimeStep) :
    calcDtHydro dtlast zfirst zlast zone_dl zone_dvel zone_sound_speed cfl
        zone_vol zone_vol0 cflv recommend =
      if (calcDtVolume dtlast
            (calcDtCourant big Msg.none zfirst zlast zone_dl zone_dvel
              zone_sound_speed cfl).1
            (calcDtCourant big Msg.none zfirst zlast zone_dl zone_dvel
              zone_sound_speed cfl).2
            zfirst zlast zone_vol zone_vol0 cflv).1 < recommend.dt
      then ⟨(calcDtVolume dtlast
              (calcDtCourant big Msg.none zfirst zlast zone_dl zone_dvel
                zone_sound_speed cfl).1
              (calcDtCourant big Msg.none zfirst zlast zone_dl zone_dvel
                zone_sound_speed cfl).2
              zfirst zlast zone_vol zone_vol0 cflv).1,
            (calcDtVolume dtlast
              (calcDtCourant big Msg.none zfirst zlast zone_dl zone_dvel
                zone_sound_speed cfl).1
              (calcDtCourant big Msg.none zfirst zlast zone_dl zone_dvel
                zone_sound_speed cfl).2
              zfirst zlast zone_vol zone_vol0 cflv).2⟩
      else recommend := rfl

/-- C4 (counterexample): with incoming `recommend.dt = 2e99` above the
`1e99` sentinel, one zone whose Courant estimate is `2e99` and whose
volume is unchanged (`zvol = zvol0 = 1`, so the volume `dtnew` is exactly
`1e99`), neither limit writes the chunk message, yet
`dtchunk = 1e99 < 2e99` commits: `recommend` is modified but its message
is the chunk's unwritten buffer (`Msg.none`), which identifies neither
limit nor a zone — the claim's "the message identifies which of the two
limits was binding" fails. -/
theorem calcDtHydro_claim_cex :
    calcDtHydro 1 0 1 (fun _ => 2) (fun _ => 0) (fun _ => 0) 1
        (fun _ => 1) (fun _ => 1) 1 ⟨2 * 10 ^ 99, Msg.none⟩ =
      ⟨big, Msg.none⟩ ∧
    big < 2 * 10 ^ 99 ∧
    (∀ z : ℤ, Msg.none ≠ Msg.courant z ∧ Msg.none ≠ Msg.volume z) := by
  have hmax : max (0 : ℚ) (max (0 : ℚ) fuzz) = fuzz := by
    rw [max_eq_right (by norm_num [fuzz]), max_eq_right (by norm_num [fuzz])]
  have hval : courVal (fun _ => 2) (fun _ => 0) (fun _ => 0) 1 0 =
      2 * 10 ^ 99 := by
    simp only [courVal, hmax]
    norm_num [fuzz]
  have hrange : chunkRange 0 1 = [0] := rfl
  have hcour : calcDtCourant big Msg.none 0 1 (fun _ => 2) (fun _ => 0)
      (fun _ => 0) 1 = (big, Msg.none) := by
    rw [calcDtCourant_eq]
    have hfold : courantFold (fun _ => 2) (fun _ => 0) (fun _ => 0) 1
        (chunkRange 0 1) = (big, -1) := by
      rw [hrange, courantFold_def, List.foldl_cons, List.foldl_nil, courStep,
        hval]
      norm_num [big]
    rw [hfold]
    norm_num
  have hvolval : volVal (fun _ => 1) (fun _ => 1) 0 = 0 := by
    norm_num [volVal]
  have hvolf : volumeFold (fun _ => 1) (fun _ => 1) (chunkRange 0 1) =
      (fuzz, -1) := by
    rw [hrange, volumeFold_def, List.foldl_cons, List.foldl_nil, volStep,
      hvolval]
    norm_num [fuzz]
  have hvol : calcDtVolume 1 big Msg.none 0 1 (fun _ => 1) (fun _ => 1) 1 =
      (big, Msg.none) := by
    rw [calcDtVolume_eq, hvolf]
    have hdt : (1 : ℚ) * 1 / fuzz = big := by norm_num [fuzz, big]
    rw [hdt]
    norm_num
  refine ⟨?_, by norm_num [big], fun z => ⟨Msg.noConfusion, Msg.noConfusion⟩⟩
  rw [calcDtHydro_eq, hcour]
  simp only
  rw [hvol]
  simp only
  rw [if_pos (by norm_num [big])]

/-- C4 (amended): provided the incoming `recommend.dt` is at most the
`1e99` sentinel (as holds whenever it was seeded with the sentinel),
after `calcDtHydro` runs on a chunk `recommend.dt` equals the minimum of
(a) the incoming `recommend.dt`, (b) the chunk's Courant limit (itself
capped at the `1e99` sentinel) and (c) the chunk's volume-change limit
`dtlast * cflv / dvovmax`; `recommend` is modified if and only if the
combined chunk value is strictly smaller than the incoming
`recommend.dt`, in which case the message is the volume-limit message
(with the volume loop's zone index) when the volume limit is strictly
below the capped Courant value, and the Courant-limit message (with the
Courant loop's zone index) otherwise. -/
theorem calcDtHydro_spec (dtlast : ℚ) (zfirst zlast : ℕ)
    (zone_dl zone_dvel zone_sound_speed : ℕ → ℚ) (cfl : ℚ)
    (zone_vol zone_vol0 : ℕ → ℚ) (cflv : ℚ) (recommend : TimeStep)
    (hrec : recommend.dt ≤ big) :
    (calcDtHydro dtlast zfirst zlast zone_dl zone_dvel zone_sound_speed cfl
        zone_vol zone_vol0 cflv recommend).dt =
      min recommend.dt
        (min (courantFold zone_dl zone_dvel zone_sound_speed cfl
            (chunkRange zfirst zlast)).1
          (dtlast * cflv /
            (volumeFold zone_vol zone_vol0 (chunkRange zfirst zlast)).1)) ∧
    (min (courantFold zone_dl zone_dvel zone_sound_speed cfl
          (chunkRange zfirst zlast)).1
        (dtlast * cflv /
          (volumeFold zone_vol zone_vol0 (chunkRange zfirst zlast)).1) <
        recommend.dt →
      calcDtHydro dtlast zfirst zlast zone_dl zone_dvel zone_sound_speed cfl
          zone_vol zone_vol0 cflv recommend =
        ⟨min (courantFold zone_dl zone_dvel zone_sound_speed cfl
            (chunkRange zfirst zlast)).1
          (dtlast * cflv /
            (volumeFold zone_vol zone_vol0 (chunkRange zfirst zlast)).1),
         if dtlast * cflv /
              (volumeFold zone_vol zone_vol0 (chunkRange zfirst zlast)).1 <
            (courantFold zone_dl zone_dvel zone_sound_speed cfl
              (chunkRange zfirst zlast)).1
         then Msg.volume (volumeFold zone_vol zone_vol0
            (chunkRange zfirst zlast)).2
         else Msg.courant (courantFold zone_dl zone_dvel zone_sound_speed cfl
            (chunkRange zfirst zlast)).2⟩) ∧
    (¬ min (courantFold zone_dl zone_dvel zone_sound_speed cfl
          (chunkRange zfirst zlast)).1
        (dtlast * cflv /
          (volumeFold zone_vol zone_vol0 (chunkRange zfirst zlast)).1) <
        recommend.dt →
      calcDtHydro dtlast zfirst zlast zone_dl zone_dvel zone_sound_speed cfl
          zone_vol zone_vol0 cflv recommend = recommend) := by
  set C := (courantFold zone_dl zone_dvel zone_sound_speed cfl
    (chunkRange zfirst zlast)).1 with hCdef
  set zC := (courantFold zone_dl zone_dvel zone_sound_speed cfl
    (chunkRange zfirst zlast)).2 with hzCdef
  set V := dtlast * cflv /
    (volumeFold zone_vol zone_vol0 (chunkRange zfirst zlast)).1 with hVdef
  set zV := (volumeFold zone_vol zone_vol0 (chunkRange zfirst zlast)).2
    with hzVdef
  have hCle : C ≤ big :=
    courantFold_fst_le zone_dl zone_dvel zone_sound_speed cfl _
  have hcour : calcDtCourant big Msg.none zfirst zlast zone_dl zone_dvel
      zone_sound_speed cfl =
      (C, if C < big then Msg.courant zC else Msg.none) := by
    rw [calcDtCourant_eq]
    by_cases h : C < big
    · rw [if_pos h, if_pos h]
    · rw [if_neg h, if_neg h]
      rw [le_antisymm hCle (not_lt.mp h)]
  have hvol : calcDtVolume dtlast C
      (if C < big then Msg.courant zC else Msg.none) zfirst zlast zone_vol
      zone_vol0 cflv =
      (if V < C then V else C,
       if V < C then Msg.volume zV
       else if C < big then Msg.courant zC else Msg.none) := by
    rw [calcDtVolume_eq]
    by_cases h : V < C
    · rw [if_pos h, if_pos h, if_pos h]
    · rw [if_neg h, if_neg h, if_neg h]
  have hmain : calcDtHydro dtlast zfirst zlast zone_dl zone_dvel
      zone_sound_speed cfl zone_vol zone_vol0 cflv recommend =
      if (if V < C then V else C) < recommend.dt
      then ⟨if V < C then V else C,
            if V < C then Msg.volume zV
            else if C < big then Msg.courant zC else Msg.none⟩
      else recommend := by
    rw [calcDtHydro_eq, hcour]
    simp only
    rw [hvol]
  have hminCV : min C V = if V < C then V else C := by
    by_cases h : V < C
    · rw [if_pos h, min_eq_right (le_of_lt h)]
    · rw [if_neg h, min_eq_left (not_lt.mp h)]
  refine ⟨?_, ?_, ?_⟩
  · rw [hmain, hminCV]
    by_cases h : (if V < C then V else C) < recommend.dt
    · rw [if_pos h]
      exact (min_eq_right (le_of_lt h)).symm
    · rw [if_neg h]
      exact (min_eq_left (not_lt.mp h)).symm
  · intro h
    rw [hminCV] at h ⊢
    rw [hmain, if_pos h]
    by_cases hv : V < C
    · rw [if_pos hv, if_pos hv, if_pos hv]
    · rw [if_neg hv, if_neg hv, if_neg hv]
      have hCb : C < big := by
        have hC1 : (if V < C then V else C) = C := if_neg hv
        rw [hC1] at h
        exact lt_of_lt_of_le h hrec
      rw [if_pos hCb]
  · intro h
    rw [hminCV] at h
    rw [hmain, if_neg h]

/-- Witness for C4 (amended) at a concrete input: one zone with Courant
value `1/2` (`zdl = 1`, `zdu = 2`, `cfl = 1`), unchanged volume (volume
`dtnew = 1e99`) and incoming `recommend = ⟨1, none⟩ ≤ 1e99`: the combined
chunk value `1/2` commits with the Courant message for zone 0. -/
theorem calcDtHydro_spec_witness :
    calcDtHydro 1 0 1 (fun _ => 1) (fun _ => 2) (fun _ => 0) 1
        (fun _ => 1) (fun _ => 1) 1 ⟨1, Msg.none⟩ =
      ⟨1 / 2, Msg.courant 0⟩ := by
  have hrange : chunkRange 0 1 = [0] := rfl
  have hval : courVal (fun _ => 1) (fun _ => 2) (fun _ => 0) 1 0 = 1 / 2 := by
    simp only [courVal]
    rw [show max (0 : ℚ) fuzz = fuzz from max_eq_right (by norm_num [fuzz]),
      show max (2 : ℚ) fuzz = 2 from max_eq_left (by norm_num [fuzz])]
    norm_num
  have hcour : courantFold (fun _ => 1) (fun _ => 2) (fun _ => 0) 1
      (chunkRange 0 1) = (1 / 2, 0) := by
    rw [hrange, courantFold_def, List.foldl_cons, List.foldl_nil, courStep,
      hval]
    norm_num [big]
  have hvolval : volVal (fun _ => 1) (fun _ => 1) 0 = 0 := by
    norm_num [volVal]
  have hvolf : volumeFold (fun _ => 1) (fun _ => 1) (chunkRange 0 1) =
      (fuzz, -1) := by
    rw [hrange, volumeFold_def, List.foldl_cons, List.foldl_nil, volStep,
      hvolval]
    norm_num [fuzz]
  have h := (calcDtHydro_spec 1 0 1 (fun _ => 1) (fun _ => 2) (fun _ => 0) 1
    (fun _ => 1) (fun _ => 1) 1 ⟨1, Msg.none⟩ (by norm_num [big])).2.1
  rw [hcour, hvolf] at h
  simp only at h
  have hVbig : (1 : ℚ) * 1 / fuzz = big := by norm_num [fuzz, big]
  rw [hVbig] at h
  have hmin : min (1 / 2 : ℚ) big = 1 / 2 :=
    min_eq_left (by norm_num [big])
  rw [hmin] at h
  have hres := h (by norm_num)
  rw [hres]
  rw [if_neg (by norm_num [big])]

/-! ## `Hydro::sumCrnrForce` (lines 343-355) and `Hydro::calcAccel`
(lines 359-375) -/

/-- `Hydro::sumCrnrForce`: for each side `s` of the chunk,
`s3 = mesh->mapSideToSidePrev(s)` and
`crnr_force_tot[s] = (side_force_pres[s] + side_force_visc[s] +
side_force_tts[s]) - (side_force_pres[s3] + side_force_visc[s3] +
side_force_tts[s3])`.  `mapSideToSidePrev` lives in `LocalMesh` (outside
this file's source) and is kept abstract. -/
def sumCrnrForce (mapSideToSidePrev : ℕ → ℕ)
    (side_force_pres side_force_visc side_force_tts : ℕ → Vec2)
    (crnr_force_tot : ℕ → Vec2) (sfirst slast : ℕ) : ℕ → Vec2 :=
  updateFold crnr_force_tot (fun _ => true)
    (fun s =>
      let s3 := mapSideToSidePrev s;
      (side_force_pres s + side_force_visc s + side_force_tts s) -
        (side_force_pres s3 + side_force_visc s3 + side_force_tts s3))
    (chunkRange sfirst slast)

/-- C5: for every side `s` of the processed range, `sumCrnrForce` stores
in `crnr_force_tot[s]` exactly the finite difference of the raw
three-term per-side force sums between `s` and its cyclic-predecessor
side `s3 = mapSideToSidePrev(s)`. -/
theorem sumCrnrForce_spec (mapSideToSidePrev : ℕ → ℕ)
    (side_force_pres side_force_visc side_force_tts : ℕ → Vec2)
    (crnr_force_tot : ℕ → Vec2) (sfirst slast s : ℕ)
    (hs : s ∈ chunkRange sfirst slast) :
    sumCrnrForce mapSideToSidePrev side_force_pres side_force_visc
        side_force_tts crnr_force_tot sfirst slast s =
      (side_force_pres s + side_force_visc s + side_force_tts s) -
        (side_force_pres (mapSideToSidePrev s) +
          side_force_visc (mapSideToSidePrev s) +
          side_force_tts (mapSideToSidePrev s)) := by
  rw [sumCrnrForce, updateFold_mem _ _ _ _ _ hs]
  rfl

/-- Witness for C5 at a concrete input: sides `0, 1` with
`mapSideToSidePrev 0 = 1`, pressure force `(s, 0)`, viscous force
`(1, 1)`, subzonal force `(0, 0)`:
`crnr_force_tot[0] = (1,1) - (2,1) = (-1, 0)`. -/
theorem sumCrnrForce_spec_witness :
    sumCrnrForce (fun _ => 1) (fun s => ⟨(s : ℚ), 0⟩) (fun _ => ⟨1, 1⟩)
        (fun _ => ⟨0, 0⟩) (fun _ => ⟨9, 9⟩) 0 2 0 = ⟨-1, 0⟩ := by
  have h := sumCrnrForce_spec (fun _ => 1) (fun s => ⟨(s : ℚ), 0⟩)
    (fun _ => ⟨1, 1⟩) (fun _ => ⟨0, 0⟩) (fun _ => ⟨9, 9⟩) 0 2 0
    (by decide)
  rw [h]
  apply Vec2.ext_comp
  · rw [Vec2.sub_x, Vec2.add_x, Vec2.add_x, Vec2.add_x, Vec2.add_x]
    norm_num
  · rw [Vec2.sub_y, Vec2.add_y, Vec2.add_y, Vec2.add_y, Vec2.add_y]
    norm_num

/-- `Hydro::calcAccel`: for each point `p` of the chunk,
`pt_accel[p] = pf.read(gid p) / max(pmass.read(gid p), fuzz)` where
`gid = GenerateMesh::pointLocalToGlobalID` (outside this file's source,
kept abstract) and the accessors' fields are per-global-point arrays. -/
def calcAccel (pointLocalToGlobalID : ℕ → ℕ) (pf : ℕ → Vec2)
    (pmass : ℕ → ℚ) (pt_accel : ℕ → Vec2) (pfirst plast : ℕ) : ℕ → Vec2 :=
  updateFold pt_accel (fun _ => true)
    (fun p => (pf (pointLocalToGlobalID p)).divS
      (max (pmass (pointLocalToGlobalID p)) fuzz))
    (chunkRange pfirst plast)

/-- C7: for every point `p` of the processed range, `calcAccel` sets
`pt_accel[p] = point_force(p) / max(point_mass(p), fuzz)` with
`fuzz = 1e-99`; the divisor is bounded below by `fuzz` (and in particular
strictly positive) for every input, including zero point mass. -/
theorem calcAccel_spec (pointLocalToGlobalID : ℕ → ℕ) (pf : ℕ → Vec2)
    (pmass : ℕ → ℚ) (pt_accel : ℕ → Vec2) (pfirst plast p : ℕ)
    (hp : p ∈ chunkRange pfirst plast) :
    calcAccel pointLocalToGlobalID pf pmass pt_accel pfirst plast p =
      (pf (pointLocalToGlobalID p)).divS
        (max (pmass (pointLocalToGlobalID p)) fuzz) ∧
    fuzz ≤ max (pmass (pointLocalToGlobalID p)) fuzz ∧
    0 < max (pmass (pointLocalToGlobalID p)) fuzz := by
  refine ⟨?_, le_max_right _ _, lt_of_lt_of_le (by norm_num [fuzz])
    (le_max_right _ _)⟩
  rw [calcAccel, updateFold_mem _ _ _ _ _ hp]
  rfl

/-- Witness for C7 at a concrete input with zero point mass: the divisor
is `max(0, fuzz) = fuzz = 1e-99 > 0` and the force `(1, 2)` yields the
acceleration `(1e99, 2e99)`. -/
theorem calcAccel_spec_witness :
    calcAccel (fun p => p) (fun _ => ⟨1, 2⟩) (fun _ => 0) (fun _ => ⟨9, 9⟩)
        0 1 0 = ⟨10 ^ 99, 2 * 10 ^ 99⟩ ∧
    (0 : ℚ) < max 0 fuzz := by
  have h := calcAccel_spec (fun p => p) (fun _ => ⟨1, 2⟩) (fun _ => 0)
    (fun _ => ⟨9, 9⟩) 0 1 0 (by decide)
  refine ⟨?_, h.2.2⟩
  rw [h.1]
  have hmax : max (0 : ℚ) fuzz = fuzz := max_eq_right (by norm_num [fuzz])
  rw [Vec2.divS, hmax]
  simp only [Vec2.mk.injEq]
  constructor
  · norm_num [fuzz]
  · norm_num [fuzz]

/-! ## Zone-field initialization in `Hydro::init` (lines 113-145) -/

/-- The subregion membership test of `Hydro::init`:
`zx.x > subrgn_xmin - eps && zx.x < subrgn_xmax + eps &&
 zx.y > subrgn_ymin - eps && zx.y < subrgn_ymax + eps` with
`eps = 1e-12`. -/
def insideSubrgn (subrgn_xmin subrgn_xmax subrgn_ymin subrgn_ymax : ℚ)
    (c : Vec2) : Bool :=
  decide (subrgn_xmin - eps < c.x) && decide (c.x < subrgn_xmax + eps) &&
    decide (subrgn_ymin - eps < c.y) && decide (c.y < subrgn_ymax + eps)

/-- The per-zone fields written by the zone loops of `Hydro::init`. -/
structure ZoneInitState where
  zone_rho : ℕ → ℚ
  zone_energy_density : ℕ → ℚ
  zone_work_rate : ℕ → ℚ
  zone_mass : ℕ → ℚ
  zone_energy_tot : ℕ → ℚ

/-- The zone part of `Hydro::init` on one zone chunk `[zfirst, zlast)`:
fill `zone_rho`, `zone_energy_density`, `zone_work_rate` with
`rho_init`, `energy_init`, `0`; if `subregion_xmin` is not the
`double`-max sentinel, overwrite the density and energy of the zones
whose center `zx[z]` passes `insideSubrgn` with `rho_init_sub`,
`energy_init_sub`; finally set `zone_mass[z] = zone_rho[z] * zvol[z]` and
`zone_energy_tot[z] = zone_energy_density[z] * zone_mass[z]`. -/
def hydroInitZones (rho_init energy_init rho_init_sub energy_init_sub : ℚ)
    (subrgn_xmin subrgn_xmax subrgn_ymin subrgn_ymax : ℚ)
    (zx : ℕ → Vec2) (zvol : ℕ → ℚ) (st : ZoneInitState)
    (zfirst zlast : ℕ) : ZoneInitState :=
  let zs := chunkRange zfirst zlast
  let zr1 := updateFold st.zone_rho (fun _ => true) (fun _ => rho_init) zs
  let ze1 := updateFold st.zone_energy_density (fun _ => true)
    (fun _ => energy_init) zs
  let zwr1 := updateFold st.zone_work_rate (fun _ => true) (fun _ => 0) zs
  let zr2 := if subrgn_xmin ≠ dblMax
    then updateFold zr1
      (fun z => insideSubrgn subrgn_xmin subrgn_xmax subrgn_ymin subrgn_ymax
        (zx z))
      (fun _ => rho_init_sub) zs
    else zr1
  let ze2 := if subrgn_xmin ≠ dblMax
    then updateFold ze1
      (fun z => insideSubrgn subrgn_xmin subrgn_xmax subrgn_ymin subrgn_ymax
        (zx z))
      (fun _ => energy_init_sub) zs
    else ze1
  let zm1 := updateFold st.zone_mass (fun _ => true)
    (fun z => zr2 z * zvol z) zs
  let zet1 := updateFold st.zone_energy_tot (fun _ => true)
    (fun z => ze2 z * (zr2 z * zvol z)) zs
  ⟨zr2, ze2, zwr1, zm1, zet1⟩

/-- C6: during initialization with a configured rectangular subregion
(`subregion_xmin` not the `double`-max sentinel), exactly the zones whose
center passes the `eps = 1e-12`-widened strict rectangle test receive
`rho_init_sub` / `energy_init_sub`, every other zone keeps the global
`rho_init` / `energy_init`, and zone mass and total energy are computed
from the post-override values: `mass = rho * vol`,
`energy_tot = energy_density * mass`.  The last conjunct ties the test to
the claim's rectangle description. -/
theorem hydroInit_subregion_spec
    (rho_init energy_init rho_init_sub energy_init_sub : ℚ)
    (subrgn_xmin subrgn_xmax subrgn_ymin subrgn_ymax : ℚ)
    (zx : ℕ → Vec2) (zvol : ℕ → ℚ) (st : ZoneInitState) (zfirst zlast z : ℕ)
    (hz : z ∈ chunkRange zfirst zlast) (hsub : subrgn_xmin ≠ dblMax) :
    ((insideSubrgn subrgn_xmin subrgn_xmax subrgn_ymin subrgn_ymax (zx z) =
        true →
      (hydroInitZones rho_init energy_init rho_init_sub energy_init_sub
          subrgn_xmin subrgn_xmax subrgn_ymin subrgn_ymax zx zvol st zfirst
          zlast).zone_rho z = rho_init_sub ∧
      (hydroInitZones rho_init energy_init rho_init_sub energy_init_sub
          subrgn_xmin subrgn_xmax subrgn_ymin subrgn_ymax zx zvol st zfirst
          zlast).zone_energy_density z = energy_init_sub) ∧
    (insideSubrgn subrgn_xmin subrgn_xmax subrgn_ymin subrgn_ymax (zx z) =
        false →
      (hydroInitZones rho_init energy_init rho_init_sub energy_init_sub
          subrgn_xmin subrgn_xmax subrgn_ymin subrgn_ymax zx zvol st zfirst
          zlast).zone_rho z = rho_init ∧
      (hydroInitZones rho_init energy_init rho_init_sub energy_init_sub
          subrgn_xmin subrgn_xmax subrgn_ymin subrgn_ymax zx zvol st zfirst
          zlast).zone_energy_density z = energy_init)) ∧
    ((hydroInitZones rho_init energy_init rho_init_sub energy_init_sub
        subrgn_xmin subrgn_xmax subrgn_ymin subrgn_ymax zx zvol st zfirst
        zlast).zone_mass z =
      (hydroInitZones rho_init energy_init rho_init_sub energy_init_sub
        subrgn_xmin subrgn_xmax subrgn_ymin subrgn_ymax zx zvol st zfirst
        zlast).zone_rho z * zvol z ∧
    (hydroInitZones rho_init energy_init rho_init_sub energy_init_sub
        subrgn_xmin subrgn_xmax subrgn_ymin subrgn_ymax zx zvol st zfirst
        zlast).zone_energy_tot z =
      (hydroInitZones rho_init energy_init rho_init_sub energy_init_sub
        subrgn_xmin subrgn_xmax subrgn_ymin subrgn_ymax zx zvol st zfirst
        zlast).zone_energy_density z *
        (hydroInitZones rho_init energy_init rho_init_sub energy_init_sub
          subrgn_xmin subrgn_xmax subrgn_ymin subrgn_ymax zx zvol st zfirst
          zlast).zone_mass z) ∧
    (insideSubrgn subrgn_xmin subrgn_xmax subrgn_ymin subrgn_ymax (zx z) =
        true ↔
      (subrgn_xmin - eps < (zx z).x ∧ (zx z).x < subrgn_xmax + eps ∧
        subrgn_ymin - eps < (zx z).y ∧ (zx z).y < subrgn_ymax + eps)) := by
  have hrhoProj : (hydroInitZones rho_init energy_init rho_init_sub
      energy_init_sub subrgn_xmin subrgn_xmax subrgn_ymin subrgn_ymax zx zvol
      st zfirst zlast).zone_rho =
      updateFold
        (updateFold st.zone_rho (fun _ => true) (fun _ => rho_init)
          (chunkRange zfirst zlast))
        (fun w => insideSubrgn subrgn_xmin subrgn_xmax subrgn_ymin
          subrgn_ymax (zx w))
        (fun _ => rho_init_sub) (chunkRange zfirst zlast) := by
    simp only [hydroInitZones, if_pos hsub]
  have heProj : (hydroInitZones rho_init energy_init rho_init_sub
      energy_init_sub subrgn_xmin subrgn_xmax subrgn_ymin subrgn_ymax zx zvol
      st zfirst zlast).zone_energy_density =
      updateFold
        (updateFold st.zone_energy_density (fun _ => true)
          (fun _ => energy_init) (chunkRange zfirst zlast))
        (fun w => insideSubrgn subrgn_xmin subrgn_xmax subrgn_ymin
          subrgn_ymax (zx w))
        (fun _ => energy_init_sub) (chunkRange zfirst zlast) := by
    simp only [hydroInitZones, if_pos hsub]
  have hrho : (hydroInitZones rho_init energy_init rho_init_sub
      energy_init_sub subrgn_xmin subrgn_xmax subrgn_ymin subrgn_ymax zx zvol
      st zfirst zlast).zone_rho z =
      if insideSubrgn subrgn_xmin subrgn_xmax subrgn_ymin subrgn_ymax (zx z)
      then rho_init_sub else rho_init := by
    rw [hrhoProj, updateFold_mem _ _ _ _ _ hz]
    by_cases hc : insideSubrgn subrgn_xmin subrgn_xmax subrgn_ymin
        subrgn_ymax (zx z)
    · rw [if_pos hc, if_pos hc]
    · rw [if_neg (by simpa using hc), if_neg hc,
        updateFold_mem _ _ _ _ _ hz]
      rfl
  have he : (hydroInitZones rho_init energy_init rho_init_sub
      energy_init_sub subrgn_xmin subrgn_xmax subrgn_ymin subrgn_ymax zx zvol
      st zfirst zlast).zone_energy_density z =
      if insideSubrgn subrgn_xmin subrgn_xmax subrgn_ymin subrgn_ymax (zx z)
      then energy_init_sub else energy_init := by
    rw [heProj, updateFold_mem _ _ _ _ _ hz]
    by_cases hc : insideSubrgn subrgn_xmin subrgn_xmax subrgn_ymin
        subrgn_ymax (zx z)
    · rw [if_pos hc, if_pos hc]
    · rw [if_neg (by simpa using hc), if_neg hc,
        updateFold_mem _ _ _ _ _ hz]
      rfl
  have hmass : (hydroInitZones rho_init energy_init rho_init_sub
      energy_init_sub subrgn_xmin subrgn_xmax subrgn_ymin subrgn_ymax zx zvol
      st zfirst zlast).zone_mass z =
      (hydroInitZones rho_init energy_init rho_init_sub energy_init_sub
        subrgn_xmin subrgn_xmax subrgn_ymin subrgn_ymax zx zvol st zfirst
        zlast).zone_rho z * zvol z := by
    have hproj : (hydroInitZones rho_init energy_init rho_init_sub
        energy_init_sub subrgn_xmin subrgn_xmax subrgn_ymin subrgn_ymax zx
        zvol st zfirst zlast).zone_mass =
        updateFold st.zone_mass (fun _ => true)
          (fun w => (hydroInitZones rho_init energy_init rho_init_sub
            energy_init_sub subrgn_xmin subrgn_xmax subrgn_ymin subrgn_ymax
            zx zvol st zfirst zlast).zone_rho w * zvol w)
          (chunkRange zfirst zlast) := rfl
    rw [hproj, updateFold_mem _ _ _ _ _ hz]
    rfl
  have hetot : (hydroInitZones rho_init energy_init rho_init_sub
      energy_init_sub subrgn_xmin subrgn_xmax subrgn_ymin subrgn_ymax zx zvol
      st zfirst zlast).zone_energy_tot z =
      (hydroInitZones rho_init energy_init rho_init_sub energy_init_sub
        subrgn_xmin subrgn_xmax subrgn_ymin subrgn_ymax zx zvol st zfirst
        zlast).zone_energy_density z *
        (hydroInitZones rho_init energy_init rho_init_sub energy_init_sub
          subrgn_xmin subrgn_xmax subrgn_ymin subrgn_ymax zx zvol st zfirst
          zlast).zone_mass z := by
    have hproj : (hydroInitZones rho_init energy_init rho_init_sub
        energy_init_sub subrgn_xmin subrgn_xmax subrgn_ymin subrgn_ymax zx
        zvol st zfirst zlast).zone_energy_tot =
        updateFold st.zone_energy_tot (fun _ => true)
          (fun w => (hydroInitZones rho_init energy_init rho_init_sub
              energy_init_sub subrgn_xmin subrgn_xmax subrgn_ymin subrgn_ymax
              zx zvol st zfirst zlast).zone_energy_density w *
            ((hydroInitZones rho_init energy_init rho_init_sub
              energy_init_sub subrgn_xmin subrgn_xmax subrgn_ymin subrgn_ymax
              zx zvol st zfirst zlast).zone_rho w * zvol w))
          (chunkRange zfirst zlast) := rfl
    rw [hproj, updateFold_mem _ _ _ _ _ hz, hmass]
    rfl
  refine ⟨⟨?_, ?_⟩, ⟨hmass, hetot⟩, ?_⟩
  · intro hc
    rw [hrho, he, if_pos hc, if_pos hc]
    exact ⟨rfl, rfl⟩
  · intro hc
    rw [hrho, he, if_neg (by simp [hc]), if_neg (by simp [hc])]
    exact ⟨rfl, rfl⟩
  · simp only [insideSubrgn, Bool.and_eq_true, decide_eq_true_eq]
    constructor
    · rintro ⟨⟨⟨h1, h2⟩, h3⟩, h4⟩
      exact ⟨h1, h2, h3, h4⟩
    · rintro ⟨h1, h2, h3, h4⟩
      exact ⟨⟨⟨h1, h2⟩, h3⟩, h4⟩

/-- Witness for C6 at a concrete input: subregion `[0,1]×[0,1]`
(`xmin = 0 ≠ dblMax`), zone 0 centered at `(1/2, 1/2)` (inside) with
volume `2`: it receives `rho = 3`, `energy = 4`, hence `mass = 6` and
`energy_tot = 24`. -/
theorem hydroInit_subregion_spec_witness :
    (hydroInitZones 1 2 3 4 0 1 0 1 (fun _ => ⟨1 / 2, 1 / 2⟩) (fun _ => 2)
        ⟨fun _ => 9, fun _ => 9, fun _ => 9, fun _ => 9, fun _ => 9⟩ 0
        1).zone_rho 0 = 3 ∧
    (hydroInitZones 1 2 3 4 0 1 0 1 (fun _ => ⟨1 / 2, 1 / 2⟩) (fun _ => 2)
        ⟨fun _ => 9, fun _ => 9, fun _ => 9, fun _ => 9, fun _ => 9⟩ 0
        1).zone_energy_density 0 = 4 ∧
    (hydroInitZones 1 2 3 4 0 1 0 1 (fun _ => ⟨1 / 2, 1 / 2⟩) (fun _ => 2)
        ⟨fun _ => 9, fun _ => 9, fun _ => 9, fun _ => 9, fun _ => 9⟩ 0
        1).zone_mass 0 = 6 ∧
    (hydroInitZones 1 2 3 4 0 1 0 1 (fun _ => ⟨1 / 2, 1 / 2⟩) (fun _ => 2)
        ⟨fun _ => 9, fun _ => 9, fun _ => 9, fun _ => 9, fun _ => 9⟩ 0
        1).zone_energy_tot 0 = 24 := by
  have hin : insideSubrgn 0 1 0 1 (⟨1 / 2, 1 / 2⟩ : Vec2) = true := by
    simp only [insideSubrgn, Bool.and_eq_true, decide_eq_true_eq]
    norm_num [eps]
  have h := hydroInit_subregion_spec 1 2 3 4 0 1 0 1
    (fun _ => ⟨1 / 2, 1 / 2⟩) (fun _ => 2)
    ⟨fun _ => 9, fun _ => 9, fun _ => 9, fun _ => 9, fun _ => 9⟩ 0 1 0
    (by decide) (by norm_num [dblMax])
  obtain ⟨⟨hpos, _⟩, ⟨hmass, hetot⟩, _⟩ := h
  obtain ⟨hrho, he⟩ := hpos hin
  refine ⟨hrho, he, ?_, ?_⟩
  · rw [hmass, hrho]
    norm_num
  · rw [hetot, he, hmass, hrho]
    norm_num

/-! ## `Hydro::copyZonesToLegion` (lines 641-657) -/

/-- The write sequence of the `while (zone_itr.has_next())` loop:
starting from counter `z`, for each pointer of the index space emit the
accessor writes `(zone_ptr, zone_rho[z], zone_energy_density[z],
zone_pressure[z])` and increment `z`. -/
def copyWrites (z : ℕ) (zone_rho zone_energy_density zone_pressure : ℕ → ℚ) :
    List ℕ → List (ℕ × ℚ × ℚ × ℚ)
  | [] => []
  | ptr :: rest =>
    (ptr, zone_rho z, zone_energy_density z, zone_pressure z) ::
      copyWrites (z + 1) zone_rho zone_energy_density zone_pressure rest

/-- `Hydro::copyZonesToLegion`: iterate the zone index space (a pointer
list), writing `zone_rho`, `zone_energy_density` and `zone_pressure_` in
iteration order while counting, then `assert(z == mesh->num_zones)`:
`none` models the fatal assertion failure. -/
def copyZonesToLegion (ispace_zones : List ℕ) (num_zones : ℕ)
    (zone_rho zone_energy_density zone_pressure : ℕ → ℚ) :
    Option (List (ℕ × ℚ × ℚ × ℚ)) :=
  let writes := copyWrites 0 zone_rho zone_energy_density zone_pressure
    ispace_zones;
  if ispace_zones.length = num_zones then some writes else none

theorem copyWrites_length (zone_rho zone_energy_density zone_pressure :
    ℕ → ℚ) (l : List ℕ) (z : ℕ) :
    (copyWrites z zone_rho zone_energy_density zone_pressure l).length =
      l.length := by
  induction l generalizing z with
  | nil => rfl
  | cons a t ih =>
    rw [copyWrites, List.length_cons, List.length_cons, ih]

theorem copyWrites_get? (zone_rho zone_energy_density zone_pressure :
    ℕ → ℚ) (l : List ℕ) (z i : ℕ) :
    (copyWrites z zone_rho zone_energy_density zone_pressure l).get? i =
      (l.get? i).map (fun ptr =>
        (ptr, zone_rho (z + i), zone_energy_density (z + i),
          zone_pressure (z + i))) := by
  induction l generalizing z i with
  | nil => rfl
  | cons a t ih =>
    cases i with
    | zero => rfl
    | succ j =>
      rw [copyWrites, List.get?_cons_succ, List.get?_cons_succ, ih]
      have hz : z + 1 + j = z + (j + 1) := by omega
      rw [hz]

/-- C9: `copyZonesToLegion` writes `zone_rho`, `zone_energy_density` and
`zone_pressure_` for the zones in iteration order (the `i`-th visited
pointer receives the values of zone `i`) and then checks that the number
of zones visited equals `mesh->num_zones`: when the index space holds
exactly `num_zones` pointers the check passes and the writes are
produced; any mismatch is fatal (`none`), not a recoverable error. -/
theorem copyZonesToLegion_spec (ispace_zones : List ℕ) (num_zones : ℕ)
    (zone_rho zone_energy_density zone_pressure : ℕ → ℚ) :
    (ispace_zones.length = num_zones →
      copyZonesToLegion ispace_zones num_zones zone_rho zone_energy_density
          zone_pressure =
        some (copyWrites 0 zone_rho zone_energy_density zone_pressure
          ispace_zones) ∧
      (copyWrites 0 zone_rho zone_energy_density zone_pressure
        ispace_zones).length = num_zones ∧
      ∀ i : ℕ,
        (copyWrites 0 zone_rho zone_energy_density zone_pressure
          ispace_zones).get? i =
          (ispace_zones.get? i).map (fun ptr =>
            (ptr, zone_rho i, zone_energy_density i, zone_pressure i))) ∧
    (ispace_zones.length ≠ num_zones →
      copyZonesToLegion ispace_zones num_zones zone_rho zone_energy_density
        zone_pressure = none) := by
  constructor
  · intro h
    refine ⟨?_, ?_, ?_⟩
    · rw [copyZonesToLegion]
      simp only [if_pos h]
    · rw [copyWrites_length, h]
    · intro i
      rw [copyWrites_get?]
      simp only [Nat.zero_add]
  · intro h
    rw [copyZonesToLegion]
    simp only [if_neg h]

/-- Witness for C9: a two-pointer index space with `num_zones = 2`
produces the in-order writes, and with `num_zones = 3` the visit-count
check fails fatally. -/
theorem copyZonesToLegion_spec_witness :
    copyZonesToLegion [7, 5] 2 (fun z => z) (fun z => z + 10)
        (fun z => z + 20) =
      some [(7, 0, 10, 20), (5, 1, 11, 21)] ∧
    copyZonesToLegion [7, 5] 3 (fun z => z) (fun z => z + 10)
        (fun z => z + 20) = none := by
  constructor
  · have h := ((copyZonesToLegion_spec [7, 5] 2 (fun z => z)
      (fun z => z + 10) (fun z => z + 20)).1 (by rfl)).1
    rw [h]
    rw [copyWrites, copyWrites, copyWrites]
    norm_num
  · exact (copyZonesToLegion_spec [7, 5] 3 (fun z => z) (fun z => z + 10)
      (fun z => z + 20)).2 (by norm_num)

/-! ## `Hydro::initRadialVel` (lines 180-194) and the velocity branch of
`Hydro::init` (lines 147-154), over `ℝ` since they need `length` (a
square root). -/

/-- `double2` for the radial-velocity initialization, over `ℝ`. -/
structure RVec2 where
  x : ℝ
  y : ℝ

/-- `length` of a `double2`. -/
noncomputable def RVec2.length (v : RVec2) : ℝ :=
  Real.sqrt (v.x ^ 2 + v.y ^ 2)

/-- Scalar multiplication `c * v` on the real `double2`. -/
def RVec2.scale (c : ℝ) (v : RVec2) : RVec2 := ⟨c * v.x, c * v.y⟩

/-- Scalar division `v / c` on the real `double2`. -/
noncomputable def RVec2.divS (v : RVec2) (c : ℝ) : RVec2 :=
  ⟨v.x / c, v.y / c⟩

/-- The `eps = 1.e-12` tolerance of `initRadialVel`, over `ℝ`. -/
noncomputable def epsR : ℝ := 1 / 10 ^ 12

/-- `Hydro::initRadialVel`: for each point of the chunk,
`pmag = length(pt_x[p])`; if `pmag > eps` then
`pt_vel[p] = vel * pt_x[p] / pmag` else `pt_vel[p] = (0, 0)`. -/
noncomputable def initRadialVel (vel : ℝ) (pt_x : ℕ → RVec2)
    (pt_vel : ℕ → RVec2) (pfirst plast : ℕ) : ℕ → RVec2 :=
  updateFold pt_vel (fun _ => true)
    (fun p =>
      let pmag := (pt_x p).length;
      if pmag > epsR then ((pt_x p).scale vel).divS pmag else ⟨0, 0⟩)
    (chunkRange pfirst plast)

/-- The per-point-chunk velocity initialization of `Hydro::init`:
`initRadialVel` when `vel_init_radial != 0`, otherwise fill with
`double2(0., 0.)`. -/
noncomputable def initPointVelChunk (vel_init_radial : ℝ)
    (pt_x : ℕ → RVec2) (pt_vel : ℕ → RVec2) (pfirst plast : ℕ) :
    ℕ → RVec2 :=
  if vel_init_radial ≠ 0
  then initRadialVel vel_init_radial pt_x pt_vel pfirst plast
  else updateFold pt_vel (fun _ => true) (fun _ => ⟨0, 0⟩)
    (chunkRange pfirst plast)

theorem epsR_pos : 0 < epsR := by norm_num [epsR]

/-- C8: with `radial_velocity_init = v ≠ 0`, every point of the processed
range at radius `r = |pt_x[p]| > 1e-12` receives
`pt_vel[p] = v * pt_x[p] / r` — a vector of magnitude `|v|` — and every
point at radius `r ≤ 1e-12` receives `(0, 0)`; with `v = 0` every point
receives `(0, 0)`. -/
theorem initPointVel_spec (vel : ℝ) (pt_x pt_vel0 : ℕ → RVec2)
    (pfirst plast p : ℕ) (hp : p ∈ chunkRange pfirst plast) :
    (vel ≠ 0 →
      (epsR < (pt_x p).length →
        initPointVelChunk vel pt_x pt_vel0 pfirst plast p =
          ((pt_x p).scale vel).divS (pt_x p).length ∧
        (initPointVelChunk vel pt_x pt_vel0 pfirst plast p).length =
          |vel|) ∧
      ((pt_x p).length ≤ epsR →
        initPointVelChunk vel pt_x pt_vel0 pfirst plast p = ⟨0, 0⟩)) ∧
    (vel = 0 → initPointVelChunk vel pt_x pt_vel0 pfirst plast p =
      ⟨0, 0⟩) := by
  constructor
  · intro hv
    have hbranch : initPointVelChunk vel pt_x pt_vel0 pfirst plast =
        initRadialVel vel pt_x pt_vel0 pfirst plast := by
      rw [initPointVelChunk, if_pos hv]
    constructor
    · intro hr
      have hval : initPointVelChunk vel pt_x pt_vel0 pfirst plast p =
          ((pt_x p).scale vel).divS (pt_x p).length := by
        rw [hbranch, initRadialVel, updateFold_mem _ _ _ _ _ hp]
        simp only [if_pos hr, if_true]
      refine ⟨hval, ?_⟩
      rw [hval]
      have hr0 : 0 < (pt_x p).length := lt_trans epsR_pos hr
      have hrne : (pt_x p).length ≠ 0 := ne_of_gt hr0
      have hsq : (pt_x p).length ^ 2 = (pt_x p).x ^ 2 + (pt_x p).y ^ 2 := by
        rw [RVec2.length, Real.sq_sqrt (by positivity)]
      have hcomp : (vel * (pt_x p).x / (pt_x p).length) ^ 2 +
          (vel * (pt_x p).y / (pt_x p).length) ^ 2 = vel ^ 2 := by
        have hexp : (vel * (pt_x p).x / (pt_x p).length) ^ 2 +
            (vel * (pt_x p).y / (pt_x p).length) ^ 2 =
            vel ^ 2 * (((pt_x p).x ^ 2 + (pt_x p).y ^ 2) /
              (pt_x p).length ^ 2) := by
          ring
        rw [hexp, ← hsq]
        field_simp
      show Real.sqrt ((vel * (pt_x p).x / (pt_x p).length) ^ 2 +
        (vel * (pt_x p).y / (pt_x p).length) ^ 2) = |vel|
      rw [hcomp, Real.sqrt_sq_eq_abs]
    · intro hr
      rw [hbranch, initRadialVel, updateFold_mem _ _ _ _ _ hp]
      simp only [if_neg (not_lt.mpr hr), if_true]
  · intro hv
    rw [initPointVelChunk, if_neg (by simp [hv]),
      updateFold_mem _ _ _ _ _ hp]
    rfl

/-- Witness for C8 at a concrete input: `v = 2` and a point at `(3, 4)`
(radius `5 > 1e-12`) receives the radial velocity `(6/5, 8/5)` of
magnitude `|2|`. -/
theorem initPointVel_spec_witness :
    initPointVelChunk 2 (fun _ => ⟨3, 4⟩) (fun _ => ⟨9, 9⟩) 0 1 0 =
      RVec2.divS (RVec2.scale 2 ⟨3, 4⟩) 5 ∧
    (initPointVelChunk 2 (fun _ => ⟨3, 4⟩) (fun _ => ⟨9, 9⟩) 0 1 0).length =
      |(2 : ℝ)| := by
  have hlen : RVec2.length ⟨3, 4⟩ = 5 := by
    rw [RVec2.length]
    rw [show ((3 : ℝ) ^ 2 + 4 ^ 2) = 5 ^ 2 by norm_num]
    exact Real.sqrt_sq (by norm_num)
  have h := ((initPointVel_spec 2 (fun _ => ⟨3, 4⟩) (fun _ => ⟨9, 9⟩) 0 1 0
    (by decide)).1 (by norm_num)).1 (by rw [hlen]; norm_num [epsR])
  refine ⟨?_, h.2⟩
  rw [h.1]
  show RVec2.divS (RVec2.scale 2 ⟨3, 4⟩) (RVec2.length ⟨3, 4⟩) = _
  rw [hlen]

end PennantHydro
